import Mathlib

/-!
Verification of the gostlink USB debug-probe driver core, as a shallow
embedding in Lean 4.  Machine integers (Go `uint32`, `byte`, `uint16`) are
modelled as `Nat` with explicit `% 2^32` (resp. `% 256`) where overflow can
occur.  Go functions returning `error` are modelled with `Option`, where
`none` models a `nil` error or — for functions that index slices — a runtime
panic, as noted at each definition.
-/

namespace Gostlink

/-- Models the uint32 wraparound of Go arithmetic: every addition on a
`uint32` value is reduced modulo `2^32`. -/
def u32 (n : Nat) : Nat := n % 2 ^ 32

/-! ## Byte buffer (buffer.go)

`Buffer` contents are modelled as `List Nat` with each element a byte
value.  `byte(v)` in Go truncates to the low 8 bits, hence `% 256`;
`v >> k` on `uint32` is `v >>> k`. -/

/-- Model of `Buffer.WriteUint32LE` (buffer.go:39-44): appends the four bytes
of `value`, least significant first. -/
def writeUint32LE (value : Nat) : List Nat :=
  [value % 256, (value >>> 8) % 256, (value >>> 16) % 256, (value >>> 24) % 256]

/-- Model of `Buffer.WriteUint16LE` (buffer.go:46-49): appends the two bytes
of `value`, least significant first. -/
def writeUint16LE (value : Nat) : List Nat :=
  [value % 256, (value >>> 8) % 256]

/-- Endianness selector (buffer.go:16-21). -/
inductive Endian
  | littleEndian
  | bigEndian
deriving DecidableEq

/-- Model of `convertToUint16` (buffer.go:67-79).  A buffer shorter than two
bytes yields `math.MaxUint16`. -/
def convertToUint16 (buf : List Nat) (e : Endian) : Nat :=
  if buf.length > 1 then
    if e = Endian.littleEndian then
      buf.getD 0 0 ||| (buf.getD 1 0 <<< 8)
    else
      buf.getD 1 0 ||| (buf.getD 0 0 <<< 8)
  else 65535

/-- Model of `convertToUint32` (buffer.go:81-93).  A buffer shorter than four
bytes yields `math.MaxUint32`. -/
def convertToUint32 (buf : List Nat) (e : Endian) : Nat :=
  if buf.length > 3 then
    if e = Endian.littleEndian then
      buf.getD 0 0 ||| (buf.getD 1 0 <<< 8) ||| (buf.getD 2 0 <<< 16) ||| (buf.getD 3 0 <<< 24)
    else
      buf.getD 3 0 ||| (buf.getD 2 0 <<< 8) ||| (buf.getD 1 0 <<< 16) ||| (buf.getD 0 0 <<< 24)
  else 4294967295

/-! ## Status decoder (errors.go, constants.go) -/

/-- The gostlink status codes `usbErrorOK .. usbErrorCommandNotFound`
(errors.go:13-19). -/
inductive UsbErrorCode
  | ok
  | wait
  | fail
  | targetUnalignedAccess
  | commandNotFound
deriving DecidableEq

/-- Transport / debug modes of the probe (constants.go:14-21). -/
inductive StLinkMode
  | unknown
  | dfu
  | mass
  | debugJtag
  | debugSwd
  | debugSwim
deriving DecidableEq

/-- The ST-Link API generations (constants.go:49-53). -/
inductive StLinkApiVersion
  | v1
  | v2
  | v3
deriving DecidableEq

/-- The non-SWIM `switch errorStatus` of `usbErrorCheck` (errors.go:60-119):
each case in source order.  The result models the returned error: `none` is
a `nil` error, `some c` a non-nil `usbError` carrying code `c`.  Note byte
`0x0d` (write-verify error, "ignoring") yields a non-nil error whose code is
`usbErrorOK`. -/
def usbErrorCheckSwitch (errorStatus : Nat) : Option UsbErrorCode :=
  if errorStatus = 0x80 then none
  else if errorStatus = 0x81 then some UsbErrorCode.fail
  else if errorStatus = 0x10 then some UsbErrorCode.wait
  else if errorStatus = 0x14 then some UsbErrorCode.wait
  else if errorStatus = 0x09 then some UsbErrorCode.fail
  else if errorStatus = 0x0c then some UsbErrorCode.fail
  else if errorStatus = 0x0d then some UsbErrorCode.ok
  else if errorStatus = 0x11 then some UsbErrorCode.fail
  else if errorStatus = 0x12 then some UsbErrorCode.fail
  else if errorStatus = 0x13 then some UsbErrorCode.fail
  else if errorStatus = 0x15 then some UsbErrorCode.fail
  else if errorStatus = 0x16 then some UsbErrorCode.fail
  else if errorStatus = 0x17 then some UsbErrorCode.fail
  else if errorStatus = 0x18 then some UsbErrorCode.fail
  else if errorStatus = 0x19 then some UsbErrorCode.fail
  else if errorStatus = 0x1a then some UsbErrorCode.fail
  else if errorStatus = 0x1d then some UsbErrorCode.fail
  else some UsbErrorCode.fail

/-- Model of `usbErrorCheck` (errors.go:38-120): SWIM mode has its own
three-way mapping; otherwise the status byte is forced to `debugErrorOk`
on API V1 ("no error checking yet on api V1") and fed to the switch. -/
def usbErrorCheck (stMode : StLinkMode) (jtagApi : StLinkApiVersion)
    (errorStatus : Nat) : Option UsbErrorCode :=
  if stMode = StLinkMode.debugSwim then
    if errorStatus = 0x00 then none
    else if errorStatus = 0x01 then some UsbErrorCode.wait
    else some UsbErrorCode.fail
  else
    usbErrorCheckSwitch
      (if jtagApi = StLinkApiVersion.v1 then 0x80 else errorStatus)

/-- The decoded status carried by the result of `usbErrorCheck`: a `nil`
error decodes as OK, a non-nil error carries its code. -/
def statusOf (r : Option UsbErrorCode) : UsbErrorCode :=
  match r with
  | none => UsbErrorCode.ok
  | some c => c

/-! ## Wait-retry command engine (debugger.go:19-59)

`usbCmdAllowRetry` runs the USB transfer, decodes the status with
`usbErrorCheck` and, on a wait status, sleeps `(1 << retries)` milliseconds
(`(1<<retries)*1000` microseconds times `1000` nanoseconds in the source)
and retries while `retries < maximumWaitRetries`.  The decode outcome of the
`n`-th transfer (0-indexed) is supplied by the oracle `check n`; USB
transfers are modelled as succeeding (an I/O failure simply truncates the
run earlier) and the mode is a debug mode, so the transfer is issued on
every iteration.  The `fuel` argument only mirrors the `for true` loop; it
starts at `maximumWaitRetries + 1`, which the loop can never exhaust since
`retries` grows on every iteration. -/

/-- Retry bound `maximumWaitRetries` (constants.go:238). -/
def maximumWaitRetries : Nat := 8

/-- Outcome of a `usbCmdAllowRetry` run: number of USB transfers issued,
the sleeps performed (in milliseconds, in order), and the returned error
(`none` = nil). -/
structure RetryResult where
  transfers : Nat
  sleepsMs : List Nat
  result : Option UsbErrorCode
deriving DecidableEq

/-- Loop body of `usbCmdAllowRetry` (debugger.go:22-56). -/
def usbCmdAllowRetryAux (check : Nat → Option UsbErrorCode) :
    Nat → Nat → Nat → List Nat → RetryResult
  | 0, transfers, _, sleeps =>
    -- never reached: the loop retries at most maximumWaitRetries times
    ⟨transfers, sleeps, some UsbErrorCode.fail⟩
  | fuel + 1, transfers, retries, sleeps =>
    let err := check transfers
    if err = some UsbErrorCode.wait ∧ retries < maximumWaitRetries then
      usbCmdAllowRetryAux check fuel (transfers + 1) (retries + 1)
        (sleeps ++ [2 ^ retries])
    else
      ⟨transfers + 1, sleeps, err⟩

/-- Model of `usbCmdAllowRetry` (debugger.go:19-59). -/
def usbCmdAllowRetry (check : Nat → Option UsbErrorCode) : RetryResult :=
  usbCmdAllowRetryAux check (maximumWaitRetries + 1) 0 0 []

/-! ## Version and capability probe (version.go:79-164) -/

/-- The capability bitset derived by `useParseVersion`, one Bool per
`flagHas...` bit (constants.go:32-45). -/
structure StLinkFlags where
  hasTrace : Bool
  hasSwdSetFreq : Bool
  hasJtagSetFreq : Bool
  hasMem16Bit : Bool
  hasGetLastRwStatus2 : Bool
  hasDapReg : Bool
  quirkJtagDpRead : Bool
  hasApInit : Bool
  hasDpBankSel : Bool
  hasRw8Bytes512 : Bool
  fixCloseAp : Bool
deriving DecidableEq

/-- The freshly allocated, all-clear bitmap (`bitmap.New(32)`). -/
def noFlags : StLinkFlags :=
  ⟨false, false, false, false, false, false, false, false, false, false, false⟩

/-- Model of the capability derivation switch in `useParseVersion`
(version.go:81-162): thresholds on the JTAG minor for a V2 probe, fixed
superset plus two thresholds for a V3 probe, nothing for V1/default. -/
def parseVersionFlags (stlink jtag : Nat) : StLinkFlags :=
  if stlink = 1 then noFlags
  else if stlink = 2 then
    { noFlags with
      hasTrace := decide (13 ≤ jtag)
      hasGetLastRwStatus2 := decide (15 ≤ jtag)
      hasSwdSetFreq := decide (22 ≤ jtag)
      hasJtagSetFreq := decide (24 ≤ jtag)
      hasDapReg := decide (24 ≤ jtag)
      quirkJtagDpRead := decide (24 ≤ jtag ∧ jtag < 32)
      hasMem16Bit := decide (26 ≤ jtag)
      hasApInit := decide (28 ≤ jtag)
      fixCloseAp := decide (29 ≤ jtag)
      hasDpBankSel := decide (32 ≤ jtag) }
  else if stlink = 3 then
    { noFlags with
      hasTrace := true
      hasGetLastRwStatus2 := true
      hasDapReg := true
      hasMem16Bit := true
      hasApInit := true
      fixCloseAp := true
      hasDpBankSel := decide (2 ≤ jtag)
      hasRw8Bytes512 := decide (6 ≤ jtag) }
  else noFlags

/-! ## USB block limits (usb.go:103-119, constants.go:243-244) -/

/-- Constant `maxReadWrite8` (constants.go:243). -/
def maxReadWrite8 : Nat := 64

/-- Constant `v3MaxReadWrite8` (constants.go:244). -/
def v3MaxReadWrite8 : Nat := 512

/-- Constant `dataBufferSize` / `STLINK_DATA_SIZE`: capacity of the data
buffer (constants.go:248). -/
def stlinkDataSize : Nat := 4096

/-- Model of `maxBlockSize` (usb.go:103-111): the largest length a 16/32-bit
transfer may have before crossing the autoincrement page boundary at
`address`; a zero result is clamped to 4. -/
def maxBlockSize (tarAutoIncrBlock address : Nat) : Nat :=
  let maxTarBlock := tarAutoIncrBlock - ((tarAutoIncrBlock - 1) &&& address)
  if maxTarBlock = 0 then 4 else maxTarBlock

/-- Model of `usbBlock` (usb.go:113-119): per-transaction cap for 8-bit
memory access, 512 bytes with the `flagHasRw8Bytes512` capability, else
64. -/
def usbBlock (flagHasRw8Bytes512 : Bool) : Nat :=
  if flagHasRw8Bytes512 then v3MaxReadWrite8 else maxReadWrite8

/-! ## Memory planner (memory.go)

Each probe transaction issued against the target is recorded as a
`MemTxn` carrying the access width of the command
(`READMEM_8BIT` / `APIV2_READMEM_16BIT` / `READMEM_32BIT`), the LE address
and the LE length written into the command frame.  The `usb_get_rw_status`
poll after each transfer is modelled as returning OK, so the planner's
`ERROR_WAIT` retry branch (a re-issue of the same transaction after a
backoff, covered by the retry-engine model above) never fires and is left
out of the transcription; the openocd-style return code of each helper is
kept. -/

/-- Access width of a probe memory command. -/
inductive MemWidth
  | w8
  | w16
  | w32
deriving DecidableEq

/-- One probe memory transaction: command width, start address and byte
length as encoded in the command frame. -/
structure MemTxn where
  width : MemWidth
  addr : Nat
  len : Nat
deriving DecidableEq

/-- The openocd return codes the planner distinguishes. -/
inductive MemRet
  | ok
  | fail
  | wait
  | targetUnaligned
  | commandNotFound
deriving DecidableEq

/-- Result of `usb_read_mem8`: transactions issued, return code, the number
of bytes requested on the USB IN endpoint, and the number of bytes copied
into the caller's buffer. -/
structure Mem8Result where
  txns : List MemTxn
  ret : MemRet
  usbReadLen : Nat
  delivered : Nat
deriving DecidableEq

/-- Model of `usb_read_mem8` (memory.go:18-56).  A length above `usbBlock`
fails without issuing a transfer.  The command frame carries `len`; the USB
read length is bumped to 2 when `len = 1` ("we need to fix read length for
single bytes").  `copy(buffer, h.databuf)` copies
`min bufLen stlinkDataSize` bytes into the caller's buffer. -/
def usbReadMem8 (hasRw512 : Bool) (addr len bufLen : Nat) : Mem8Result :=
  if len > usbBlock hasRw512 then ⟨[], MemRet.fail, 0, 0⟩
  else
    ⟨[⟨MemWidth.w8, addr, len⟩], MemRet.ok,
      if len = 1 then len + 1 else len, min bufLen stlinkDataSize⟩

/-- Model of `usb_read_mem16` (memory.go:59-95): rejected without the
`STLINK_F_HAS_MEM_16BIT` capability; length and address must be 2-byte
aligned or the transaction is not issued. -/
def usbReadMem16 (hasMem16 : Bool) (addr len : Nat) : List MemTxn × MemRet :=
  if hasMem16 = false then ([], MemRet.commandNotFound)
  else if len % 2 > 0 ∨ addr % 2 > 0 then ([], MemRet.targetUnaligned)
  else ([⟨MemWidth.w16, addr, len⟩], MemRet.ok)

/-- Model of `usb_read_mem32` (memory.go:97-128): length and address must be
4-byte aligned or the transaction is not issued. -/
def usbReadMem32 (addr len : Nat) : List MemTxn × MemRet :=
  if len % 4 > 0 ∨ addr % 4 > 0 then ([], MemRet.targetUnaligned)
  else ([⟨MemWidth.w32, addr, len⟩], MemRet.ok)

/-- Loop body of `usb_read_mem` (memory.go:144-222), after `count` has been
scaled to bytes and the 16-bit fallback applied.  The unaligned-head branch
of the source falls through into the shared wide-emission code; here that
code is duplicated in both branches of the head `if`.  The recursive call
`usb_read_mem(addr, 1, bytes_remaining, ...)` for a non-multiple remainder
reappears as the recursion at `size = 1`.  `fuel` mirrors the `for count>0`
loop; every iteration consumes at least one byte, so
`count*size + 1` fuel can never run out. -/
def usbReadMemLoop (hasMem16 hasRw512 : Bool) (page : Nat) :
    Nat → Nat → Nat → Nat → List MemTxn × MemRet
  | 0, _, _, _ => ([], MemRet.fail)
  | fuel + 1, addr, count, size =>
    if count = 0 then ([], MemRet.ok)
    else
      let br0 := if size ≠ 1 then maxBlockSize page addr else usbBlock hasRw512
      let br := if count < br0 then count else br0
      if size ≠ 1 then
        if addr &&& (size - 1) > 0 then
          let head := size - (addr &&& (size - 1))
          let r8 := usbReadMem8 hasRw512 addr head 0
          if r8.ret ≠ MemRet.ok then (r8.txns, r8.ret)
          else
            let addr1 := u32 (addr + head)
            let count1 := count - head
            let br1 := br - head
            let w :=
              if br1 &&& (size - 1) > 0 then
                usbReadMemLoop hasMem16 hasRw512 page fuel addr1 br1 1
              else if size = 2 then usbReadMem16 hasMem16 addr1 br1
              else usbReadMem32 addr1 br1
            if w.2 ≠ MemRet.ok then (r8.txns ++ w.1, w.2)
            else
              let rest := usbReadMemLoop hasMem16 hasRw512 page fuel
                (u32 (addr1 + br1)) (count1 - br1) size
              (r8.txns ++ w.1 ++ rest.1, rest.2)
        else
          let w :=
            if br &&& (size - 1) > 0 then
              usbReadMemLoop hasMem16 hasRw512 page fuel addr br 1
            else if size = 2 then usbReadMem16 hasMem16 addr br
            else usbReadMem32 addr br
          if w.2 ≠ MemRet.ok then w
          else
            let rest := usbReadMemLoop hasMem16 hasRw512 page fuel
              (u32 (addr + br)) (count - br) size
            (w.1 ++ rest.1, rest.2)
      else
        let r8 := usbReadMem8 hasRw512 addr br 0
        if r8.ret ≠ MemRet.ok then (r8.txns, r8.ret)
        else
          let rest := usbReadMemLoop hasMem16 hasRw512 page fuel
            (u32 (addr + br)) (count - br) 1
          (r8.txns ++ rest.1, rest.2)

/-- Model of `usb_read_mem` (memory.go:130-225): the byte count is
`count * size`, a 16-bit request falls back to 8-bit when the probe lacks
`STLINK_F_HAS_MEM_16BIT`, then the planner loop runs.  `page` is the
handle's `max_mem_packet`. -/
def usbReadMem (hasMem16 hasRw512 : Bool) (page addr size count : Nat) :
    List MemTxn × MemRet :=
  let countB := count * size
  let size1 := if size = 2 ∧ hasMem16 = false then 1 else size
  usbReadMemLoop hasMem16 hasRw512 page (countB + 1) addr countB size1

/-! ## RTT channel drain (rtt.go:225-263) -/

/-- Constant `seggerRttBufferSize`: size of one channel descriptor
(rtt.go:33). -/
def seggerRttBufferSize : Nat := 24

/-- Constant `seggerRttControlBlockSize`: size of the control-block header
(rtt.go:34). -/
def seggerRttControlBlockSize : Nat := 24

/-- One channel descriptor snapshot, `seggerRttChannel` (rtt.go:39-46). -/
structure SeggerRttChannel where
  name : Nat
  buffer : Nat
  sizeOfBuffer : Nat
  wrOff : Nat
  rdOff : Nat
  flags : Nat
deriving DecidableEq

/-- The `bufferOffset` computed by the loop at rtt.go:231-237: the sum of
the buffer sizes of all channels before `channelIdx`. -/
def bufferOffsetOf (channels : List SeggerRttChannel) (channelIdx : Nat) : Nat :=
  ((channels.take channelIdx).map SeggerRttChannel.sizeOfBuffer).sum

/-- A memory write requested against the target: address, access width,
element count, and source bytes. -/
structure MemWriteReq where
  addr : Nat
  width : Nat
  count : Nat
  data : List Nat
deriving DecidableEq

/-- The byte-copy loop of `readDataFromRttChannelBuffer` (rtt.go:239-247):
starting at `rdOff`, copy `ramBuffer[bufferOffset+RdOff]` until
`RdOff = wrOff`, wrapping `RdOff` to 0 once it exceeds `size - 1`.  The
source loop has no bounds check: an index at or past the end of `ramBuffer`
is a Go runtime panic, modelled as `none`; `fuel` models the possible
divergence of the loop (when `wrOff` can never be hit). -/
def drainLoop (ramBuffer : List Nat) (bufferOffset wrOff size : Nat) :
    Nat → Nat → Option (List Nat × Nat)
  | 0, _ => none
  | fuel + 1, rdOff =>
    if rdOff = wrOff then some ([], rdOff)
    else
      match ramBuffer.get? (bufferOffset + rdOff) with
      | none => none
      | some b =>
        let rdOff1 := rdOff + 1
        let rdOff2 := if rdOff1 > size - 1 then 0 else rdOff1
        match drainLoop ramBuffer bufferOffset wrOff size fuel rdOff2 with
        | none => none
        | some (bs, rdFinal) => some (b :: bs, rdFinal)

/-- Model of `readDataFromRttChannelBuffer` (rtt.go:225-263): drains the
up-channel `channelIdx` out of the host window `ramBuffer`, and — when at
least one byte was collected — requests the write-back of the final read
offset to `ramStart + offset + 24 + channelIdx*24 + 16` as a little-endian
u32, with width 4 (`Memory32BitBlock`) and count 1.  `none` models a Go
panic (missing channel or out-of-range window index) or loop divergence. -/
def readDataFromRttChannelBuffer (ramStart offset : Nat)
    (channels : List SeggerRttChannel) (channelIdx : Nat)
    (ramBuffer : List Nat) (fuel : Nat) :
    Option (List Nat × Option MemWriteReq) :=
  match channels.get? channelIdx with
  | none => none
  | some ch =>
    let bufferOffset := bufferOffsetOf channels channelIdx
    match drainLoop ramBuffer bufferOffset ch.wrOff ch.sizeOfBuffer fuel ch.rdOff with
    | none => none
    | some (data, rdFinal) =>
      if data.length > 0 then
        let addressRdOff := u32 (ramStart + offset + seggerRttControlBlockSize
          + channelIdx * seggerRttBufferSize + 16)
        some (data, some ⟨addressRdOff, 4, 1, writeUint32LE rdFinal⟩)
      else some (data, none)

/-! ## Speed map matching (speed.go:177-225) -/

/-- A `speedMap` entry (speed.go:19-22). -/
structure SpeedMapEntry where
  speed : Nat
  speedDivisor : Nat
deriving DecidableEq

/-- The `for i, s := range smap` loop of `matchSpeedMap`
(speed.go:184-208), carried over the remaining entries with the running
index `i` and the accumulators `lastValid`, `speedIndex` (both `-1` when
unset), `speedDiff` (a uint32, initially `math.MaxUint32`) and `counter`.
`kHz - s.speed` is uint32 subtraction, hence the `% 2^32` wrap; the
unsigned comparison `currentDiff <= 0` holds only at 0. -/
def matchSpeedLoop (kHz : Nat) :
    List SpeedMapEntry → Nat → Int → Int → Nat → Nat → Int × Int × Nat × Nat
  | [], _, lastValid, speedIndex, speedDiff, counter =>
    (lastValid, speedIndex, speedDiff, counter)
  | s :: rest, i, lastValid, speedIndex, speedDiff, _ =>
    let counter := i
    if s.speed = 0 then
      matchSpeedLoop kHz rest (i + 1) lastValid speedIndex speedDiff counter
    else
      let lastValid : Int := i
      if kHz = s.speed then (lastValid, (i : Int), speedDiff, counter)
      else
        let currentDiff := (kHz + 2 ^ 32 - s.speed) % 2 ^ 32
        let currentDiff := if currentDiff = 0 then (2 ^ 32 - currentDiff) % 2 ^ 32
          else currentDiff
        if currentDiff < speedDiff ∧ s.speed ≤ kHz then
          matchSpeedLoop kHz rest (i + 1) lastValid (i : Int) currentDiff counter
        else
          matchSpeedLoop kHz rest (i + 1) lastValid speedIndex speedDiff counter

/-- The Go slice access `smap[speedIndex]` with an `int` index: `none`
models the runtime panic on a negative or out-of-range index. -/
def speedEntryAt (smap : List SpeedMapEntry) (speedIndex : Int) :
    Option SpeedMapEntry :=
  match speedIndex with
  | Int.ofNat n => smap.get? n
  | Int.negSucc _ => none

/-- Model of `matchSpeedMap` (speed.go:177-225).  `none` models the Go
panic of `smap[speedIndex]` with a negative or out-of-range index on the
query-mismatch path; `Except.error s` models the returned
`(-1, error)` whose message cites the chosen entry's speed `s`;
`Except.ok i` is the returned index (`-1` possible only when the map holds
no nonzero-speed entry). -/
def matchSpeedMap (smap : List SpeedMapEntry) (kHz : Nat) (query : Bool) :
    Option (Except Nat Int) :=
  let r := matchSpeedLoop kHz smap 0 (-1) (-1) (2 ^ 32 - 1) 0
  let lastValid := r.1
  let speedIndex0 := r.2.1
  let counter := r.2.2.2
  let p : Int × Bool :=
    if speedIndex0 = -1 then (lastValid, false)
    else if counter = smap.length then (speedIndex0, false)
    else (speedIndex0, true)
  if p.2 = false ∧ query = true then
    match speedEntryAt smap p.1 with
    | some e => some (Except.error e.speed)
    | none => none
  else some (Except.ok p.1)

/-- An index into the speed map that is in bounds and refers to an entry
with nonzero speed. -/
def GoodIdx (smap : List SpeedMapEntry) (j : Int) : Prop :=
  ∃ n : Nat, j = (n : Int) ∧ ∃ h : n < smap.length, (smap.get ⟨n, h⟩).speed ≠ 0

/-! ## Supporting lemmas -/

/-- Disjoint bitwise or is addition: a value below `2^k` ors with a
`k`-shifted value into their sum. -/
lemma lor_shift_eq_add {k a : Nat} (b : Nat) (h : a < 2 ^ k) :
    a ||| (b <<< k) = 2 ^ k * b + a := by
  rw [Nat.shiftLeft_eq, Nat.lor_comm, Nat.mul_comm b (2 ^ k),
    ← Nat.mul_add_lt_is_or h b]

/-- An in-bounds optional lookup returns the `getD` value. -/
lemma getElem?_eq_some_getD (ram : List Nat) (i : Nat) (h : i < ram.length) :
    ram[i]? = some (ram.getD i 0) := by
  induction ram generalizing i with
  | nil => simp at h
  | cons a l ih =>
    cases i with
    | zero => simp
    | succ n => simpa using ih n (by simpa using h)

/-- The sum of the first `n` powers of two. -/
lemma sum_pow_two_range (n : Nat) :
    ((List.range n).map (fun i => 2 ^ i)).sum = 2 ^ n - 1 := by
  induction n with
  | zero => simp
  | succ m ih =>
    rw [List.range_succ, List.map_append, List.sum_append, ih]
    have : 1 ≤ 2 ^ m := Nat.one_le_two_pow
    simp [Nat.pow_succ]
    omega

/-- The debug-mode status switch collapses to its four observable
outcomes: `0x80` is a nil error, `0x0d` a non-nil error with code OK,
`0x10` and `0x14` wait, everything else fails. -/
lemma usbErrorCheckSwitch_characterization (b : Nat) :
    usbErrorCheckSwitch b =
      (if b = 0x80 then none
       else if b = 0x0d then some UsbErrorCode.ok
       else if b = 0x10 ∨ b = 0x14 then some UsbErrorCode.wait
       else some UsbErrorCode.fail) := by
  by_cases h01 : b = 0x80
  · subst h01; decide
  by_cases h02 : b = 0x81
  · subst h02; decide
  by_cases h03 : b = 0x10
  · subst h03; decide
  by_cases h04 : b = 0x14
  · subst h04; decide
  by_cases h05 : b = 0x09
  · subst h05; decide
  by_cases h06 : b = 0x0c
  · subst h06; decide
  by_cases h07 : b = 0x0d
  · subst h07; decide
  by_cases h08 : b = 0x11
  · subst h08; decide
  by_cases h09 : b = 0x12
  · subst h09; decide
  by_cases h10 : b = 0x13
  · subst h10; decide
  by_cases h11 : b = 0x15
  · subst h11; decide
  by_cases h12 : b = 0x16
  · subst h12; decide
  by_cases h13 : b = 0x17
  · subst h13; decide
  by_cases h14 : b = 0x18
  · subst h14; decide
  by_cases h15 : b = 0x19
  · subst h15; decide
  by_cases h16 : b = 0x1a
  · subst h16; decide
  by_cases h17 : b = 0x1d
  · subst h17; decide
  have hor : ¬(b = 0x10 ∨ b = 0x14) := by tauto
  rw [usbErrorCheckSwitch, if_neg h01, if_neg h02, if_neg h03, if_neg h04, if_neg h05,
    if_neg h06, if_neg h07, if_neg h08, if_neg h09, if_neg h10, if_neg h11, if_neg h12,
    if_neg h13, if_neg h14, if_neg h15, if_neg h16, if_neg h17,
    if_neg h01, if_neg h07, if_neg hor]

/-- Unfolding of the retry loop body: one transfer per iteration, one
backoff sleep of `2^retries` milliseconds per retry, and the final
iteration returns the decode result of its own transfer. -/
lemma usbCmdAllowRetryAux_spec (check : Nat → Option UsbErrorCode) :
    ∀ fuel retries transfers sleeps,
      fuel + retries = maximumWaitRetries + 1 →
      retries ≤ maximumWaitRetries →
      transfers + 1 ≤ (usbCmdAllowRetryAux check fuel transfers retries sleeps).transfers
      ∧ (usbCmdAllowRetryAux check fuel transfers retries sleeps).transfers
          ≤ transfers + (maximumWaitRetries - retries) + 1
      ∧ (usbCmdAllowRetryAux check fuel transfers retries sleeps).sleepsMs
          = sleeps ++ (List.range
              ((usbCmdAllowRetryAux check fuel transfers retries sleeps).transfers - transfers - 1)).map
              (fun i => 2 ^ (retries + i))
      ∧ (usbCmdAllowRetryAux check fuel transfers retries sleeps).result
          = check ((usbCmdAllowRetryAux check fuel transfers retries sleeps).transfers - 1) := by
  intro fuel
  induction fuel with
  | zero =>
    intro retries transfers sleeps hsum hle
    exfalso
    simp [maximumWaitRetries] at hsum hle
    omega
  | succ f ih =>
    intro retries transfers sleeps hsum hle
    by_cases hw : check transfers = some UsbErrorCode.wait ∧ retries < maximumWaitRetries
    · have hrec := ih (retries + 1) (transfers + 1) (sleeps ++ [2 ^ retries])
        (by omega) (by omega)
      have heq : usbCmdAllowRetryAux check (f + 1) transfers retries sleeps
          = usbCmdAllowRetryAux check f (transfers + 1) (retries + 1) (sleeps ++ [2 ^ retries]) := by
        simp only [usbCmdAllowRetryAux, if_pos hw]
      rw [heq]
      obtain ⟨ha, hb, hc, hd⟩ := hrec
      refine ⟨by omega, by omega, ?_, hd⟩
      rw [hc, List.append_assoc]
      congr 1
      have hn : ∃ n,
          (usbCmdAllowRetryAux check f (transfers + 1) (retries + 1) (sleeps ++ [2 ^ retries])).transfers
            - transfers - 1 = n + 1
          ∧ (usbCmdAllowRetryAux check f (transfers + 1) (retries + 1) (sleeps ++ [2 ^ retries])).transfers
            - (transfers + 1) - 1 = n := by
        refine ⟨(usbCmdAllowRetryAux check f (transfers + 1) (retries + 1)
          (sleeps ++ [2 ^ retries])).transfers - transfers - 2, by omega, by omega⟩
      obtain ⟨n, hn1, hn2⟩ := hn
      rw [hn1, hn2, List.range_succ_eq_map, List.map_cons, List.map_map]
      simp only [List.singleton_append, Function.comp]
      congr 1
      apply List.map_congr_left
      intro i _
      congr 1
      omega
    · have heq : usbCmdAllowRetryAux check (f + 1) transfers retries sleeps
          = ⟨transfers + 1, sleeps, check transfers⟩ := by
        simp only [usbCmdAllowRetryAux, if_neg hw]
      rw [heq]
      dsimp only
      refine ⟨by omega, by omega, by simp, by simp⟩

/-- Every transaction `usb_read_mem8` issues is the single 8-bit command
at the given address and length, and the length respects `usbBlock`. -/
lemma mem8_txns_mem {h5 : Bool} {addr len bufLen : Nat} {t : MemTxn}
    (ht : t ∈ (usbReadMem8 h5 addr len bufLen).txns) :
    t = ⟨MemWidth.w8, addr, len⟩ ∧ len ≤ usbBlock h5 := by
  unfold usbReadMem8 at ht
  split_ifs at ht with h
  · simp at ht
  all_goals simp at ht
  all_goals exact ⟨ht, by omega⟩

/-- Every transaction `usb_read_mem16` issues is the single 16-bit command
at the given address and length, both 2-byte aligned. -/
lemma mem16_txns_mem {hm : Bool} {addr len : Nat} {t : MemTxn}
    (ht : t ∈ (usbReadMem16 hm addr len).1) :
    t = ⟨MemWidth.w16, addr, len⟩ ∧ len % 2 = 0 ∧ addr % 2 = 0 := by
  unfold usbReadMem16 at ht
  split_ifs at ht with h1 h2
  · simp at ht
  · simp at ht
  · simp at ht
    push_neg at h2
    exact ⟨ht, by omega, by omega⟩

/-- Every transaction `usb_read_mem32` issues is the single 32-bit command
at the given address and length, both 4-byte aligned. -/
lemma mem32_txns_mem {addr len : Nat} {t : MemTxn}
    (ht : t ∈ (usbReadMem32 addr len).1) :
    t = ⟨MemWidth.w32, addr, len⟩ ∧ len % 4 = 0 ∧ addr % 4 = 0 := by
  unfold usbReadMem32 at ht
  split_ifs at ht with h1
  · simp at ht
  · simp at ht
    push_neg at h1
    exact ⟨ht, by omega, by omega⟩

/-- An 8-bit transaction satisfies the alignment claims vacuously. -/
lemma align_of_w8 {t : MemTxn} {a l : Nat} (h : t = ⟨MemWidth.w8, a, l⟩) :
    (t.width = MemWidth.w16 → t.addr % 2 = 0) ∧ (t.width = MemWidth.w32 → t.addr % 4 = 0) := by
  subst h
  refine ⟨fun h => ?_, fun h => ?_⟩ <;> simp at h

/-- A 16-bit transaction at an even address satisfies the alignment
claims. -/
lemma align_of_w16 {t : MemTxn} {a l : Nat} (h : t = ⟨MemWidth.w16, a, l⟩) (ha : a % 2 = 0) :
    (t.width = MemWidth.w16 → t.addr % 2 = 0) ∧ (t.width = MemWidth.w32 → t.addr % 4 = 0) := by
  subst h
  refine ⟨fun _ => ha, fun h => ?_⟩
  simp at h

/-- A 32-bit transaction at a word-aligned address satisfies the alignment
claims. -/
lemma align_of_w32 {t : MemTxn} {a l : Nat} (h : t = ⟨MemWidth.w32, a, l⟩) (ha : a % 4 = 0) :
    (t.width = MemWidth.w16 → t.addr % 2 = 0) ∧ (t.width = MemWidth.w32 → t.addr % 4 = 0) := by
  subst h
  refine ⟨fun h => ?_, fun _ => ha⟩
  simp at h

/-- Membership in the first component of a conditional pair splits along
the condition. -/
lemma mem_fst_ite_iff {p : Prop} [Decidable p] (a b : List MemTxn × MemRet) (t : MemTxn) :
    (t ∈ (if p then a else b).1) ↔ (p ∧ t ∈ a.1) ∨ (¬p ∧ t ∈ b.1) := by
  split_ifs with h <;> simp [h]

/-- Every transaction the planner loop emits at width 16 sits at an even
address, and at width 32 at a word-aligned address: the alignment checks of
`usb_read_mem16` and `usb_read_mem32` guard every emission site. -/
lemma loop_align (hm h5 : Bool) (page : Nat) :
    ∀ fuel addr count size t, t ∈ (usbReadMemLoop hm h5 page fuel addr count size).1 →
      (t.width = MemWidth.w16 → t.addr % 2 = 0) ∧ (t.width = MemWidth.w32 → t.addr % 4 = 0) := by
  intro fuel
  induction fuel with
  | zero =>
    intro addr count size t ht
    simp [usbReadMemLoop] at ht
  | succ f ih =>
    intro addr count size t ht
    by_cases hc : count = 0
    · simp [usbReadMemLoop, hc] at ht
    simp only [usbReadMemLoop, if_neg hc, mem_fst_ite_iff, List.mem_append] at ht
    repeat' first
      | (rcases ht with ht | ht)
      | (obtain ⟨-, ht⟩ := ht)
    all_goals
      first
        | exact align_of_w8 (mem8_txns_mem ht).1
        | exact align_of_w16 (mem16_txns_mem ht).1 (mem16_txns_mem ht).2.2
        | exact align_of_w32 (mem32_txns_mem ht).1 (mem32_txns_mem ht).2.2
        | exact ih _ _ _ _ ht
        | (rename_i htx
           first
             | exact align_of_w8 (mem8_txns_mem htx).1
             | exact align_of_w16 (mem16_txns_mem htx).1 (mem16_txns_mem htx).2.2
             | exact align_of_w32 (mem32_txns_mem htx).1 (mem32_txns_mem htx).2.2
             | exact ih _ _ _ _ htx)

/-- `maxBlockSize` at a power-of-two page is the distance to the next page
boundary; the clamp-to-4 branch is unreachable there. -/
lemma maxBlockSize_pow (k a : Nat) :
    maxBlockSize (2 ^ k) a = 2 ^ k - a % 2 ^ k := by
  unfold maxBlockSize
  rw [Nat.land_comm, Nat.and_pow_two_sub_one_eq_mod]
  have h1 : a % 2 ^ k < 2 ^ k := Nat.mod_lt _ (by positivity)
  have h2 : ¬ (2 ^ k - a % 2 ^ k = 0) := by omega
  simp [h2]

/-- Advancing by an unaligned head keeps the remaining length within the
page-boundary bound at the advanced address. -/
lemma capA_pow (k addr H C : Nat) (hk : k ≤ 32)
    (hC : C ≤ maxBlockSize (2 ^ k) addr) :
    C - H ≤ maxBlockSize (2 ^ k) (u32 (addr + H)) := by
  rw [maxBlockSize_pow] at hC ⊢
  unfold u32
  rw [Nat.mod_mod_of_dvd _ (pow_dvd_pow 2 hk)]
  have h1 : (addr + H) % 2 ^ k ≤ addr % 2 ^ k + H := by
    calc (addr + H) % 2 ^ k = (addr % 2 ^ k + H % 2 ^ k) % 2 ^ k := by rw [Nat.add_mod]
    _ ≤ addr % 2 ^ k + H % 2 ^ k := Nat.mod_le _ _
    _ ≤ addr % 2 ^ k + H := by have := Nat.mod_le H (2 ^ k); omega
  have h2 : addr % 2 ^ k < 2 ^ k := Nat.mod_lt _ (by positivity)
  omega

/-- The page-boundary bound survives an unaligned head advance for the two
autoincrement page sizes. -/
lemma capA (page : Nat) (hpage : page = 1024 ∨ page = 4096) (addr H C : Nat)
    (hC : C ≤ maxBlockSize page addr) :
    C - H ≤ maxBlockSize page (u32 (addr + H)) := by
  rcases hpage with h | h <;> subst h
  · exact capA_pow 10 addr H C (by omega) hC
  · exact capA_pow 12 addr H C (by omega) hC

/-- An 8-bit transaction within `usbBlock` satisfies the cap claims. -/
lemma cap_of_w8 {t : MemTxn} {a l page : Nat} {h5 : Bool}
    (heq : t = ⟨MemWidth.w8, a, l⟩) (hl : l ≤ usbBlock h5) :
    (t.width = MemWidth.w8 → t.len ≤ usbBlock h5)
    ∧ (t.width ≠ MemWidth.w8 → t.len ≤ maxBlockSize page t.addr) := by
  subst heq
  exact ⟨fun _ => hl, fun h => absurd rfl h⟩

/-- A wide transaction within its page-boundary bound satisfies the cap
claims. -/
lemma cap_of_wide {t : MemTxn} {w : MemWidth} {A L page : Nat} (h5 : Bool)
    (heq : t = ⟨w, A, L⟩) (hw : w ≠ MemWidth.w8) (hL : L ≤ maxBlockSize page A) :
    (t.width = MemWidth.w8 → t.len ≤ usbBlock h5)
    ∧ (t.width ≠ MemWidth.w8 → t.len ≤ maxBlockSize page t.addr) := by
  subst heq
  exact ⟨fun h => absurd h hw, fun _ => hL⟩

/-- Every transaction the planner loop emits respects the per-width caps:
`usbBlock` for 8-bit commands and the autoincrement page bound for wide
commands. -/
lemma loop_cap (hm h5 : Bool) (page : Nat) (hpage : page = 1024 ∨ page = 4096) :
    ∀ fuel addr count size t, t ∈ (usbReadMemLoop hm h5 page fuel addr count size).1 →
      (t.width = MemWidth.w8 → t.len ≤ usbBlock h5)
      ∧ (t.width ≠ MemWidth.w8 → t.len ≤ maxBlockSize page t.addr) := by
  intro fuel
  induction fuel with
  | zero =>
    intro addr count size t ht
    simp [usbReadMemLoop] at ht
  | succ f ih =>
    intro addr count size t ht
    by_cases hc : count = 0
    · simp [usbReadMemLoop, hc] at ht
    simp only [usbReadMemLoop, if_neg hc, mem_fst_ite_iff, List.mem_append] at ht
    rcases ht with ⟨hs, ht⟩ | ⟨hs, ht⟩
    · have hC : (if count < (if size ≠ 1 then maxBlockSize page addr else usbBlock h5) then count
          else (if size ≠ 1 then maxBlockSize page addr else usbBlock h5)) ≤ maxBlockSize page addr := by
        simp only [if_pos hs]
        split_ifs <;> omega
      repeat' first
        | (rcases ht with ht | ht)
        | (obtain ⟨-, ht⟩ := ht)
      all_goals
        first
          | exact cap_of_w8 (mem8_txns_mem ht).1 (mem8_txns_mem ht).2
          | exact cap_of_wide h5 (mem16_txns_mem ht).1 (by decide) (capA page hpage addr _ _ hC)
          | exact cap_of_wide h5 (mem16_txns_mem ht).1 (by decide) hC
          | exact cap_of_wide h5 (mem32_txns_mem ht).1 (by decide) (capA page hpage addr _ _ hC)
          | exact cap_of_wide h5 (mem32_txns_mem ht).1 (by decide) hC
          | exact ih _ _ _ _ ht
          | (rename_i htx
             first
               | exact cap_of_w8 (mem8_txns_mem htx).1 (mem8_txns_mem htx).2
               | exact cap_of_wide h5 (mem16_txns_mem htx).1 (by decide) (capA page hpage addr _ _ hC)
               | exact cap_of_wide h5 (mem16_txns_mem htx).1 (by decide) hC
               | exact cap_of_wide h5 (mem32_txns_mem htx).1 (by decide) (capA page hpage addr _ _ hC)
               | exact cap_of_wide h5 (mem32_txns_mem htx).1 (by decide) hC
               | exact ih _ _ _ _ htx)
    · repeat' first
        | (rcases ht with ht | ht)
        | (obtain ⟨-, ht⟩ := ht)
      all_goals
        first
          | exact cap_of_w8 (mem8_txns_mem ht).1 (mem8_txns_mem ht).2
          | exact ih _ _ _ _ ht
          | (rename_i htx
             first
               | exact cap_of_w8 (mem8_txns_mem htx).1 (mem8_txns_mem htx).2
               | exact ih _ _ _ _ htx)

/-- Both capability settings allow at least 64 bytes per 8-bit command. -/
lemma usbBlock_ge_64 (h5 : Bool) : 64 ≤ usbBlock h5 := by
  cases h5 <;> simp [usbBlock, maxReadWrite8, v3MaxReadWrite8]

/-- An in-cap 8-bit read succeeds and issues exactly its one command. -/
lemma mem8_ok {h5 : Bool} {addr len bufLen : Nat} (h : len ≤ usbBlock h5) :
    (usbReadMem8 h5 addr len bufLen).ret = MemRet.ok
    ∧ (usbReadMem8 h5 addr len bufLen).txns = [⟨MemWidth.w8, addr, len⟩] := by
  unfold usbReadMem8
  rw [if_neg (by omega)]
  exact ⟨rfl, rfl⟩

/-- A wide request starting at an unaligned address issues the 8-bit head
transfer of exactly `size - (addr mod size)` bytes first. -/
lemma usbReadMem_head (hm h5 : Bool) (page addr count size : Nat)
    (hsz : size = 2 ∧ hm = true ∨ size = 4)
    (hh : addr &&& (size - 1) > 0) (hcount : 1 ≤ count) :
    (usbReadMem hm h5 page addr size count).1.head? =
      some ⟨MemWidth.w8, addr, size - (addr &&& (size - 1))⟩ := by
  rcases hsz with ⟨h2, hmt⟩ | h4
  · subst h2; subst hmt
    have h8 := @mem8_ok h5 addr (2 - addr % 2) 0
      (by have := usbBlock_ge_64 h5; omega)
    unfold usbReadMem
    have hcb : ¬ (count * 2 = 0) := by omega
    norm_num
    simp only [usbReadMemLoop, if_neg hcb]
    norm_num
    rw [if_pos (by simpa using hh)]
    simp only [h8.1, h8.2]
    norm_num
    split_ifs <;> first | rfl | simp
  · subst h4
    have hle : addr &&& 3 ≤ 3 := Nat.and_le_right
    have h8 := @mem8_ok h5 addr (4 - (addr &&& 3)) 0
      (by have := usbBlock_ge_64 h5; omega)
    unfold usbReadMem
    have hcb : ¬ (count * 4 = 0) := by omega
    norm_num
    simp only [usbReadMemLoop, if_neg hcb]
    norm_num
    rw [if_pos (by simpa using hh)]
    simp only [h8.1, h8.2]
    norm_num
    split_ifs <;> first | rfl | simp

/-- A drain over the 16-byte ring with `rdOff = 14`, `wrOff = 3` collects
the five bytes at window indices 14, 15, 0, 1, 2 and ends at offset 3. -/
lemma drainLoop_wrap16 (ram : List Nat) (bo : Nat) (f : Nat)
    (hram : bo + 16 ≤ ram.length) :
    drainLoop ram bo 3 16 (f + 6) 14 =
      some ([ram.getD (bo + 14) 0, ram.getD (bo + 15) 0, ram.getD bo 0,
             ram.getD (bo + 1) 0, ram.getD (bo + 2) 0], 3) := by
  have h14 := getElem?_eq_some_getD ram (bo + 14) (by omega)
  have h15 := getElem?_eq_some_getD ram (bo + 15) (by omega)
  have h0 := getElem?_eq_some_getD ram bo (by omega)
  have h1 := getElem?_eq_some_getD ram (bo + 1) (by omega)
  have h2 := getElem?_eq_some_getD ram (bo + 2) (by omega)
  generalize hg14 : ram.getD (bo + 14) 0 = v14 at h14 ⊢
  generalize hg15 : ram.getD (bo + 15) 0 = v15 at h15 ⊢
  generalize hg0 : ram.getD bo 0 = v0 at h0 ⊢
  generalize hg1 : ram.getD (bo + 1) 0 = v1 at h1 ⊢
  generalize hg2 : ram.getD (bo + 2) 0 = v2 at h2 ⊢
  simp only [drainLoop]
  norm_num
  rw [h14, h15, h0, h1, h2]

/-- A good index denotes a real entry of the map with nonzero speed. -/
lemma speedEntryAt_of_good {smap : List SpeedMapEntry} {j : Int} (h : GoodIdx smap j) :
    ∃ e, speedEntryAt smap j = some e ∧ e.speed ≠ 0 := by
  obtain ⟨n, rfl, hlt, hnz⟩ := h
  exact ⟨smap.get ⟨n, hlt⟩, List.get?_eq_get hlt, hnz⟩

/-- The match loop only ever stores `-1` or good indices in `lastValid` and
`speedIndex`, never resets `lastValid`, and leaves at least one of them set
whenever a nonzero-speed entry was scanned. -/
lemma matchSpeedLoop_spec (kHz : Nat) (smap : List SpeedMapEntry) :
    ∀ (rest : List SpeedMapEntry) (i : Nat) (lastValid speedIndex : Int) (speedDiff counter : Nat),
      rest = smap.drop i →
      (lastValid = -1 ∨ GoodIdx smap lastValid) →
      (speedIndex = -1 ∨ GoodIdx smap speedIndex) →
      ((matchSpeedLoop kHz rest i lastValid speedIndex speedDiff counter).1 = -1
        ∨ GoodIdx smap (matchSpeedLoop kHz rest i lastValid speedIndex speedDiff counter).1)
      ∧ ((matchSpeedLoop kHz rest i lastValid speedIndex speedDiff counter).2.1 = -1
        ∨ GoodIdx smap (matchSpeedLoop kHz rest i lastValid speedIndex speedDiff counter).2.1)
      ∧ (lastValid ≠ -1 → (matchSpeedLoop kHz rest i lastValid speedIndex speedDiff counter).1 ≠ -1)
      ∧ ((∃ e ∈ rest, e.speed ≠ 0) →
          (matchSpeedLoop kHz rest i lastValid speedIndex speedDiff counter).1 ≠ -1
          ∨ (matchSpeedLoop kHz rest i lastValid speedIndex speedDiff counter).2.1 ≠ -1) := by
  intro rest
  induction rest with
  | nil =>
    intro i lv si sd c hrest hlv hsi
    simp only [matchSpeedLoop]
    exact ⟨hlv, hsi, fun h => h, fun h => by simp at h⟩
  | cons s rest ih =>
    intro i lv si sd c hrest hlv hsi
    have hlen : i < smap.length := by
      have := congrArg List.length hrest
      simp [List.length_drop] at this
      omega
    have hget : smap.get ⟨i, hlen⟩ = s := by
      have h1 : (smap.drop i).head? = some s := by rw [← hrest]; rfl
      rw [List.head?_drop] at h1
      have h2 := List.getElem?_eq_getElem hlen
      rw [h2] at h1
      simpa using h1
    have hrest2 : rest = smap.drop (i + 1) := by
      have : (smap.drop i).tail = smap.drop (i + 1) := by
        rw [List.tail_drop]
      rw [← hrest] at this
      simpa using this
    have hgood : s.speed ≠ 0 → GoodIdx smap (i : Int) :=
      fun hs => ⟨i, rfl, hlen, by rw [hget]; exact hs⟩
    by_cases hs : s.speed = 0
    · simp only [matchSpeedLoop, if_pos hs]
      have := ih (i + 1) lv si sd i hrest2 hlv hsi
      refine ⟨this.1, this.2.1, this.2.2.1, fun hex => ?_⟩
      apply this.2.2.2
      rcases hex with ⟨e, he, hne⟩
      rcases List.mem_cons.mp he with rfl | h2
      · exact absurd hs hne
      · exact ⟨e, h2, hne⟩
    · simp only [matchSpeedLoop, if_neg hs]
      by_cases hk : kHz = s.speed
      · simp only [if_pos hk]
        have hg := hgood hs
        exact ⟨Or.inr hg, Or.inr hg, fun _ => by simp, fun _ => Or.inl (by simp)⟩
      · simp only [if_neg hk]
        have hstep : ∀ (si2 : Int) (sd2 : Nat), (si2 = -1 ∨ GoodIdx smap si2) →
            ((matchSpeedLoop kHz rest (i + 1) (i : Int) si2 sd2 i).1 = -1
              ∨ GoodIdx smap (matchSpeedLoop kHz rest (i + 1) (i : Int) si2 sd2 i).1)
            ∧ ((matchSpeedLoop kHz rest (i + 1) (i : Int) si2 sd2 i).2.1 = -1
              ∨ GoodIdx smap (matchSpeedLoop kHz rest (i + 1) (i : Int) si2 sd2 i).2.1)
            ∧ ((matchSpeedLoop kHz rest (i + 1) (i : Int) si2 sd2 i).1 ≠ -1) := by
          intro si2 sd2 hsi2
          have := ih (i + 1) (i : Int) si2 sd2 i hrest2 (Or.inr (hgood hs)) hsi2
          exact ⟨this.1, this.2.1, this.2.2.1 (by simp)⟩
        split_ifs <;>
          first
            | exact ⟨(hstep _ _ (Or.inr (hgood hs))).1, (hstep _ _ (Or.inr (hgood hs))).2.1,
                fun _ => (hstep _ _ (Or.inr (hgood hs))).2.2,
                fun _ => Or.inl (hstep _ _ (Or.inr (hgood hs))).2.2⟩
            | exact ⟨(hstep _ _ hsi).1, (hstep _ _ hsi).2.1,
                fun _ => (hstep _ _ hsi).2.2,
                fun _ => Or.inl (hstep _ _ hsi).2.2⟩

/-! ## Claim theorems -/

/-- C1 (amended): for every decode-outcome oracle, the wait-retry engine
`usbCmdAllowRetry` performs between 1 and 9 USB transfers against a single
command (one initial transfer plus at most 8 retries); its backoff sleeps
are exactly 1, 2, 4, ... milliseconds (`2^i` for the `i`-th retry, up to
128 ms); their total equals `2^(transfers-1) - 1` ms, hence lies in
[1, 255] ms whenever at least one retry occurred; and the engine returns
the decoded result of its final transfer, so any non-Wait non-OK status
terminates the loop with that error. -/
theorem c1_retry_engine_amended (check : Nat → Option UsbErrorCode) :
    1 ≤ (usbCmdAllowRetry check).transfers
    ∧ (usbCmdAllowRetry check).transfers ≤ 9
    ∧ (usbCmdAllowRetry check).sleepsMs =
        (List.range ((usbCmdAllowRetry check).transfers - 1)).map (fun i => 2 ^ i)
    ∧ (usbCmdAllowRetry check).sleepsMs.sum = 2 ^ ((usbCmdAllowRetry check).transfers - 1) - 1
    ∧ (usbCmdAllowRetry check).result = check ((usbCmdAllowRetry check).transfers - 1) := by
  have h := usbCmdAllowRetryAux_spec check (maximumWaitRetries + 1) 0 0 [] (by omega) (by omega)
  obtain ⟨ha, hb, hc, hd⟩ := h
  simp only [maximumWaitRetries] at ha hb hc hd
  unfold usbCmdAllowRetry
  simp only [maximumWaitRetries]
  refine ⟨by omega, by omega, ?_, ?_, hd⟩
  · rw [hc]
    simp
  · rw [hc]
    simp [sum_pow_two_range]

/-- C1 counterexample: when the probe answers Wait on every transfer, the
engine issues 9 USB transfers against the single command, refuting the
claimed bound of at most 8. -/
theorem c1_retry_transfer_count_counterexample :
    ¬ (usbCmdAllowRetry (fun _ => some UsbErrorCode.wait)).transfers ≤ 8 := by decide

/-- C2: outside SWIM mode the status decoder returns OK for any first byte
when the active API is V1; on API V2 or V3 it decodes to OK exactly for
bytes 0x80 and 0x0D, decodes to Wait exactly for 0x10 and 0x14, and maps
every other byte to Fail. -/
theorem c2_status_decoder (stMode : StLinkMode) (jtagApi : StLinkApiVersion) (b : Nat)
    (hmode : stMode ≠ StLinkMode.debugSwim) :
    (jtagApi = StLinkApiVersion.v1 → statusOf (usbErrorCheck stMode jtagApi b) = UsbErrorCode.ok)
    ∧ (jtagApi ≠ StLinkApiVersion.v1 →
        ((statusOf (usbErrorCheck stMode jtagApi b) = UsbErrorCode.ok ↔ b = 0x80 ∨ b = 0x0d)
         ∧ (statusOf (usbErrorCheck stMode jtagApi b) = UsbErrorCode.wait ↔ b = 0x10 ∨ b = 0x14)
         ∧ (¬(b = 0x80 ∨ b = 0x0d ∨ b = 0x10 ∨ b = 0x14) →
             statusOf (usbErrorCheck stMode jtagApi b) = UsbErrorCode.fail))) := by
  constructor
  · intro h1
    subst h1
    unfold usbErrorCheck
    rw [if_neg hmode]
    norm_num [usbErrorCheckSwitch, statusOf]
  · intro h1
    unfold usbErrorCheck
    rw [if_neg hmode, if_neg h1, usbErrorCheckSwitch_characterization]
    split_ifs <;> simp_all [statusOf] <;> tauto

/-- C2 witness: in SWD debug mode on API V1 the decoder accepts an
arbitrary byte. -/
theorem c2_status_decoder_witness :
    StLinkMode.debugSwd ≠ StLinkMode.debugSwim
    ∧ statusOf (usbErrorCheck StLinkMode.debugSwd StLinkApiVersion.v1 0x42) = UsbErrorCode.ok :=
  ⟨by decide, (c2_status_decoder StLinkMode.debugSwd StLinkApiVersion.v1 0x42 (by decide)).1 rfl⟩

/-- C3 (amended): the memory planner never issues a 16-bit probe
transaction at an odd address nor a 32-bit transaction at an address that
is not a multiple of 4; a request whose start address is unaligned for its
effective width (2 with 16-bit support, or 4) first issues a single 8-bit
head transfer of exactly `width - (addr mod width)` bytes; and the example
request `read_mem(addr=0x20000001, width=4, count=1)` emits an 8-bit read
of 3 bytes at 0x20000001 followed by an 8-bit read of 1 byte at
0x20000004 (the one remaining byte is less than a word, so the planner
recurses at width 1 instead of issuing a 32-bit read). -/
theorem c3_memory_alignment_amended :
    (∀ (hm h5 : Bool) (page addr size count : Nat) (t : MemTxn),
      t ∈ (usbReadMem hm h5 page addr size count).1 →
        (t.width = MemWidth.w16 → t.addr % 2 = 0) ∧ (t.width = MemWidth.w32 → t.addr % 4 = 0))
    ∧ (∀ (hm h5 : Bool) (page addr count size : Nat),
        (size = 2 ∧ hm = true ∨ size = 4) → addr &&& (size - 1) > 0 → 1 ≤ count →
          (usbReadMem hm h5 page addr size count).1.head? =
            some ⟨MemWidth.w8, addr, size - (addr &&& (size - 1))⟩)
    ∧ (usbReadMem true false 1024 0x20000001 4 1).1 =
        [⟨MemWidth.w8, 0x20000001, 3⟩, ⟨MemWidth.w8, 0x20000004, 1⟩] := by
  refine ⟨?_, ?_, by decide⟩
  · intro hm h5 page addr size count t ht
    unfold usbReadMem at ht
    exact loop_align hm h5 page _ _ _ _ t ht
  · intro hm h5 page addr count size hsz hh hcount
    exact usbReadMem_head hm h5 page addr count size hsz hh hcount

/-- C3 counterexample: the unaligned example request does not emit the
claimed 32-bit read of 4 bytes at 0x20000004 after its 8-bit head; it
emits an 8-bit read of 1 byte there. -/
theorem c3_unaligned_example_counterexample :
    (usbReadMem true false 1024 0x20000001 4 1).1 ≠
      [⟨MemWidth.w8, 0x20000001, 3⟩, ⟨MemWidth.w32, 0x20000004, 4⟩]
    ∧ (usbReadMem true false 1024 0x20000001 4 1).1 =
      [⟨MemWidth.w8, 0x20000001, 3⟩, ⟨MemWidth.w8, 0x20000004, 1⟩] := by decide

/-- C3 witness: a width-4 request at the odd address 0x20000001 heads with
an 8-bit transfer of 3 bytes. -/
theorem c3_memory_alignment_witness :
    ((4 = 2 ∧ true = true ∨ 4 = 4) ∧ 0x20000001 &&& (4 - 1) > 0 ∧ (1:Nat) ≤ 1)
    ∧ (usbReadMem true false 1024 0x20000001 4 1).1.head? = some ⟨MemWidth.w8, 0x20000001, 3⟩ :=
  ⟨⟨by decide, by decide, by decide⟩, by
    have h := c3_memory_alignment_amended.2.1 true false 1024 0x20000001 1 4
      (by decide) (by decide) (by decide)
    exact h.trans (by decide)⟩

/-- C4: every probe transaction the planner issues is capped: an 8-bit
transaction carries at most `usbBlock` bytes (512 with HAS_RW8_512BYTES,
64 otherwise), and a 16/32-bit transaction at address `a` carries at most
`maxBlockSize page a` bytes, with `page` the autoincrement page (1024 or
4096). -/
theorem c4_transaction_caps (hm h5 : Bool) (page addr size count : Nat)
    (hpage : page = 1024 ∨ page = 4096) (t : MemTxn)
    (ht : t ∈ (usbReadMem hm h5 page addr size count).1) :
    (t.width = MemWidth.w8 → t.len ≤ usbBlock h5)
    ∧ (t.width ≠ MemWidth.w8 → t.len ≤ maxBlockSize page t.addr) := by
  unfold usbReadMem at ht
  exact loop_cap hm h5 page hpage _ _ _ _ t ht

/-- C4 witness: the 32-bit transaction of 1020 bytes at 0x20000004 emitted
for a large unaligned read respects the page-boundary cap. -/
theorem c4_transaction_caps_witness :
    ((1024 = 1024 ∨ 1024 = 4096)
      ∧ (⟨MemWidth.w32, 0x20000004, 1020⟩ : MemTxn) ∈ (usbReadMem true false 1024 0x20000001 4 600).1)
    ∧ ((⟨MemWidth.w32, 0x20000004, 1020⟩ : MemTxn).width = MemWidth.w8 →
        (⟨MemWidth.w32, 0x20000004, 1020⟩ : MemTxn).len ≤ usbBlock false)
    ∧ ((⟨MemWidth.w32, 0x20000004, 1020⟩ : MemTxn).width ≠ MemWidth.w8 →
        (⟨MemWidth.w32, 0x20000004, 1020⟩ : MemTxn).len ≤
          maxBlockSize 1024 (⟨MemWidth.w32, 0x20000004, 1020⟩ : MemTxn).addr) :=
  ⟨⟨Or.inl rfl, by decide⟩,
    c4_transaction_caps true false 1024 0x20000001 4 600 (Or.inl rfl) _ (by decide)⟩

/-- C5 (amended): after parsing a V2 probe with JTAG minor 29, the derived
capability bitset includes HAS_TRACE, HAS_GETLASTRWSTATUS2,
HAS_SWD_SET_FREQ, HAS_JTAG_SET_FREQ, HAS_DAP_REG, HAS_MEM_16BIT,
HAS_AP_INIT, FIX_CLOSE_AP and also QUIRK_JTAG_DP_READ (set for
24 <= jtag < 32), and excludes HAS_DP_BANKSEL and HAS_RW8_512BYTES. -/
theorem c5_capabilities_v2j29_amended :
    (parseVersionFlags 2 29).hasTrace = true
    ∧ (parseVersionFlags 2 29).hasGetLastRwStatus2 = true
    ∧ (parseVersionFlags 2 29).hasSwdSetFreq = true
    ∧ (parseVersionFlags 2 29).hasJtagSetFreq = true
    ∧ (parseVersionFlags 2 29).hasDapReg = true
    ∧ (parseVersionFlags 2 29).hasMem16Bit = true
    ∧ (parseVersionFlags 2 29).hasApInit = true
    ∧ (parseVersionFlags 2 29).fixCloseAp = true
    ∧ (parseVersionFlags 2 29).quirkJtagDpRead = true
    ∧ (parseVersionFlags 2 29).hasDpBankSel = false
    ∧ (parseVersionFlags 2 29).hasRw8Bytes512 = false := by decide

/-- C5 counterexample: at V2J29 the code sets QUIRK_JTAG_DP_READ (the
threshold is 24 <= jtag < 32), so the claimed exclusion of that bit is
false. -/
theorem c5_quirk_counterexample :
    (parseVersionFlags 2 29).quirkJtagDpRead ≠ false := by decide

/-- C6: an 8-bit memory read of exactly 1 byte puts length 1 in the
command frame, requests a 2-byte USB response, and delivers exactly 1 byte
into a caller buffer of length 1. -/
theorem c6_single_byte_read (hasRw512 : Bool) (addr bufLen : Nat) :
    (usbReadMem8 hasRw512 addr 1 bufLen).usbReadLen = 2
    ∧ (usbReadMem8 hasRw512 addr 1 bufLen).txns = [⟨MemWidth.w8, addr, 1⟩]
    ∧ (bufLen = 1 → (usbReadMem8 hasRw512 addr 1 bufLen).delivered = 1) := by
  have h : ¬ ((1:Nat) > usbBlock hasRw512) := by
    have := usbBlock_ge_64 hasRw512
    omega
  unfold usbReadMem8
  rw [if_neg h]
  refine ⟨rfl, rfl, fun hb => ?_⟩
  subst hb
  simp [stlinkDataSize]

/-- C6 witness: the single-byte read at a concrete address requests 2 USB
bytes and delivers 1. -/
theorem c6_single_byte_read_witness :
    (1 : Nat) = 1
    ∧ (usbReadMem8 false 0x20000000 1 1).usbReadLen = 2
    ∧ (usbReadMem8 false 0x20000000 1 1).delivered = 1 :=
  ⟨rfl, (c6_single_byte_read false 0x20000000 1).1,
    (c6_single_byte_read false 0x20000000 1).2.2 rfl⟩

/-- C7: draining an up-channel whose snapshot has buffer size 16, read
offset 14 and write offset 3 delivers exactly the five window bytes at
indices 14, 15, 0, 1, 2 (wrapping the read offset at the buffer size) and
writes the final read offset 3 back as a little-endian u32 with width 4
and count 1 at `ram_start + control_block_offset + 24 + channel_index*24
+ 16`. -/
theorem c7_rtt_drain_wrap (ramStart offset channelIdx : Nat)
    (channels : List SeggerRttChannel) (ch : SeggerRttChannel)
    (ram : List Nat) (fuel : Nat)
    (hch : channels.get? channelIdx = some ch)
    (hsize : ch.sizeOfBuffer = 16) (hwr : ch.wrOff = 3) (hrd : ch.rdOff = 14)
    (hfuel : 6 ≤ fuel)
    (hram : bufferOffsetOf channels channelIdx + 16 ≤ ram.length) :
    readDataFromRttChannelBuffer ramStart offset channels channelIdx ram fuel =
      some ([ram.getD (bufferOffsetOf channels channelIdx + 14) 0,
             ram.getD (bufferOffsetOf channels channelIdx + 15) 0,
             ram.getD (bufferOffsetOf channels channelIdx) 0,
             ram.getD (bufferOffsetOf channels channelIdx + 1) 0,
             ram.getD (bufferOffsetOf channels channelIdx + 2) 0],
            some ⟨u32 (ramStart + offset + 24 + channelIdx * 24 + 16), 4, 1,
              writeUint32LE 3⟩) := by
  obtain ⟨f, rfl⟩ : ∃ f, fuel = f + 6 := ⟨fuel - 6, by omega⟩
  unfold readDataFromRttChannelBuffer
  rw [hch]
  simp only [hsize, hwr, hrd]
  rw [drainLoop_wrap16 ram (bufferOffsetOf channels channelIdx) f hram]
  simp [seggerRttControlBlockSize, seggerRttBufferSize]

/-- C7 witness: the wrap drain on a concrete one-channel snapshot over the
window 0..15 delivers bytes 14, 15, 0, 1, 2 and requests the width-4
count-1 write of LE 3 at offset 40. -/
theorem c7_rtt_drain_wrap_witness :
    (([⟨0, 0, 16, 3, 14, 0⟩] : List SeggerRttChannel).get? 0 = some ⟨0, 0, 16, 3, 14, 0⟩
      ∧ (6 : Nat) ≤ 6
      ∧ bufferOffsetOf [⟨0, 0, 16, 3, 14, 0⟩] 0 + 16 ≤ (List.range 16).length)
    ∧ readDataFromRttChannelBuffer 0 0 [⟨0, 0, 16, 3, 14, 0⟩] 0 (List.range 16) 6 =
        some ([14, 15, 0, 1, 2], some ⟨40, 4, 1, writeUint32LE 3⟩) :=
  ⟨⟨by decide, by decide, by decide⟩, by
    have h := c7_rtt_drain_wrap 0 0 0 [⟨0, 0, 16, 3, 14, 0⟩] ⟨0, 0, 16, 3, 14, 0⟩
      (List.range 16) 6 (by decide) rfl rfl rfl (by decide) (by decide)
    exact h.trans (by decide)⟩

/-- C8: the drain pass performs no bounds check on the snapshot offsets.
With a single up-channel of buffer size 16 but read offset 20 the copy loop
indexes the 16-byte host window out of range (a Go runtime panic, modelled
as `none`); when the window happens to be larger (a second channel
follows), the same snapshot makes the loop deliver 4 bytes (one of them
from beyond the channel's extent) and still write the updated read offset
back to the target, contradicting the claimed clean failure without
delivery or target write. -/
theorem c8_rtt_drain_out_of_bounds :
    readDataFromRttChannelBuffer 0x20000000 0 [⟨0, 0x20000000, 16, 3, 20, 0⟩] 0
      (List.replicate 16 0xAB) 64 = none
    ∧ readDataFromRttChannelBuffer 0x20000000 0
        [⟨0, 0x20000000, 16, 3, 20, 0⟩, ⟨0, 0x20000010, 16, 0, 0, 0⟩] 0
        (List.range 32) 64
      = some ([20, 0, 1, 2], some ⟨0x20000028, 4, 1, writeUint32LE 3⟩) := by decide

/-- C9: reading a u32 (u16) little-endian from a fresh buffer into which
the value was written little-endian returns the value, and the big-endian
u16/u32 readers return the byte-reversed interpretation of the same
bytes. -/
theorem c9_endian_roundtrip :
    (∀ x : Nat, x < 2 ^ 32 → convertToUint32 (writeUint32LE x) Endian.littleEndian = x)
    ∧ (∀ x : Nat, x < 2 ^ 16 → convertToUint16 (writeUint16LE x) Endian.littleEndian = x)
    ∧ (∀ b0 b1 b2 b3 : Nat,
        convertToUint32 [b0, b1, b2, b3] Endian.bigEndian =
          convertToUint32 [b3, b2, b1, b0] Endian.littleEndian)
    ∧ (∀ b0 b1 : Nat,
        convertToUint16 [b0, b1] Endian.bigEndian =
          convertToUint16 [b1, b0] Endian.littleEndian) := by
  refine ⟨?_, ?_, ?_, ?_⟩
  · intro x hx
    simp only [convertToUint32, writeUint32LE, List.length_cons, List.length_nil,
      List.getD_cons_zero, List.getD_cons_succ]
    norm_num
    rw [lor_shift_eq_add ((x >>> 8) % 256) (by omega),
      lor_shift_eq_add ((x >>> 16) % 256) (by
        simp only [Nat.shiftRight_eq_div_pow]; omega),
      lor_shift_eq_add ((x >>> 24) % 256) (by
        simp only [Nat.shiftRight_eq_div_pow]; omega)]
    simp only [Nat.shiftRight_eq_div_pow]
    omega
  · intro x hx
    simp only [convertToUint16, writeUint16LE, List.length_cons, List.length_nil,
      List.getD_cons_zero, List.getD_cons_succ]
    norm_num
    rw [lor_shift_eq_add ((x >>> 8) % 256) (by omega)]
    simp only [Nat.shiftRight_eq_div_pow]
    omega
  · intro b0 b1 b2 b3
    simp [convertToUint32]
  · intro b0 b1
    simp [convertToUint16]

/-- C9 witness: the round trip holds at 0x12345678 and 0x1234. -/
theorem c9_endian_roundtrip_witness :
    ((0x12345678 : Nat) < 2 ^ 32
      ∧ convertToUint32 (writeUint32LE 0x12345678) Endian.littleEndian = 0x12345678)
    ∧ ((0x1234 : Nat) < 2 ^ 16
      ∧ convertToUint16 (writeUint16LE 0x1234) Endian.littleEndian = 0x1234) :=
  ⟨⟨by decide, c9_endian_roundtrip.1 0x12345678 (by decide)⟩,
    ⟨by decide, c9_endian_roundtrip.2.1 0x1234 (by decide)⟩⟩

/-- C10: when the speed map holds at least one entry with nonzero speed,
`matchSpeedMap` never indexes the map out of bounds (no `none` / panic
outcome, also on the query-mismatch error path and the slowest-entry
fallback), and any returned index refers to an in-bounds entry with
nonzero speed. -/
theorem c10_speed_map_bounds (smap : List SpeedMapEntry) (kHz : Nat) (query : Bool)
    (hnz : ∃ e ∈ smap, e.speed ≠ 0) :
    matchSpeedMap smap kHz query ≠ none
    ∧ (∀ i : Int, matchSpeedMap smap kHz query = some (Except.ok i) → GoodIdx smap i) := by
  have hspec := matchSpeedLoop_spec kHz smap smap 0 (-1) (-1) (2 ^ 32 - 1) 0 (by simp)
    (Or.inl rfl) (Or.inl rfl)
  obtain ⟨hlv, hsi, -, hex⟩ := hspec
  have hne := hex hnz
  unfold matchSpeedMap
  by_cases h1 : (matchSpeedLoop kHz smap 0 (-1) (-1) (2 ^ 32 - 1) 0).2.1 = -1
  · have hgood : GoodIdx smap (matchSpeedLoop kHz smap 0 (-1) (-1) (2 ^ 32 - 1) 0).1 := by tauto
    obtain ⟨e, he, -⟩ := speedEntryAt_of_good hgood
    simp only [if_pos h1]
    cases query with
    | false =>
      rw [if_neg (by simp)]
      refine ⟨by simp, fun i hi => ?_⟩
      simp only [Option.some.injEq, Except.ok.injEq] at hi
      rw [← hi]
      exact hgood
    | true =>
      rw [if_pos (by simp)]
      rw [he]
      exact ⟨by simp, fun i hi => by simp at hi⟩
  · have hgood : GoodIdx smap (matchSpeedLoop kHz smap 0 (-1) (-1) (2 ^ 32 - 1) 0).2.1 := by tauto
    obtain ⟨e, he, -⟩ := speedEntryAt_of_good hgood
    simp only [if_neg h1]
    by_cases h2 : (matchSpeedLoop kHz smap 0 (-1) (-1) (2 ^ 32 - 1) 0).2.2.2 = smap.length
    · simp only [if_pos h2]
      cases query with
      | false =>
        rw [if_neg (by simp)]
        refine ⟨by simp, fun i hi => ?_⟩
        simp only [Option.some.injEq, Except.ok.injEq] at hi
        rw [← hi]
        exact hgood
      | true =>
        rw [if_pos (by simp)]
        rw [he]
        exact ⟨by simp, fun i hi => by simp at hi⟩
    · simp only [if_neg h2]
      rw [if_neg (by simp)]
      refine ⟨by simp, fun i hi => ?_⟩
      simp only [Option.some.injEq, Except.ok.injEq] at hi
      rw [← hi]
      exact hgood

/-- C10 witness: a one-entry map with nonzero speed yields a panic-free
result for a query below the slowest speed. -/
theorem c10_speed_map_bounds_witness :
    ((⟨4000, 0⟩ : SpeedMapEntry) ∈ ([⟨4000, 0⟩] : List SpeedMapEntry) ∧ (4000 : Nat) ≠ 0)
    ∧ matchSpeedMap [⟨4000, 0⟩] 100 false ≠ none :=
  ⟨⟨by decide, by decide⟩,
    (c10_speed_map_bounds [⟨4000, 0⟩] 100 false ⟨⟨4000, 0⟩, by decide, by decide⟩).1⟩

end Gostlink
